import Mathlib

/-!
Shallow embedding of `src/rewrite_dates.py`, a one-shot maintenance script
that rewrites author/committer timestamps of a fixed list of git commits.

The script's observable behaviour is modelled as a trace of events (console
prints, the single file write, the chmod, and the external command
invocation), parameterised by an environment that supplies the results of
the external `git rev-parse` calls (as a resolution function) and the exit
code of the `git filter-branch` invocation.  The Python `dict` used for the
commit mapping is modelled as an insertion-ordered association list with
Python's update semantics (an existing key keeps its position, its value is
overwritten).
-/

set_option autoImplicit false

namespace RewriteDates

/-- Observable effects of the script, in order of occurrence. -/
inductive Event where
  | print (line : String)
  | writeFile (name : String) (content : String)
  | chmod (name : String) (mode : Nat)
  | runCmd (args : List String)
  deriving DecidableEq

/-- Environment of a run: the outcome of each external hash resolution
(`git rev-parse short`, with `none` modelling a `CalledProcessError`), the exit
code of the `git filter-branch` invocation, and the current working
directory used by `os.path.abspath`. -/
structure Env where
  resolve : String → Option String
  rewriteExitCode : Nat
  cwd : String

/-- The hardcoded commit list of `rewrite_dates.py` (lines 4-16):
pairs of an abbreviated commit reference and a target timestamp. -/
def commits : List (String × String) :=
  [ ("afadbad", "2025-11-19T10:00:00"),
    ("32cac5d", "2025-11-19T14:00:00"),
    ("5555779", "2025-11-20T09:00:00"),
    ("09dcc55", "2025-11-20T11:00:00"),
    ("7b552ce", "2025-11-21T10:00:00"),
    ("cc7e692", "2025-11-21T16:00:00"),
    ("b8580ab", "2025-11-24T09:00:00"),
    ("d14d9d6", "2025-11-24T10:00:00"),
    ("540a291", "2025-11-25T11:00:00"),
    ("4d7c5ac", "2025-11-25T14:00:00"),
    ("74bc4e7", "2025-11-26T10:00:00") ]

/-- Keys of an association list, in order. -/
def keysOf (m : List (String × String)) : List String :=
  m.map Prod.fst

/-- Lookup in an association list (first entry with the key wins). -/
def lookupKey (k : String) : List (String × String) → Option String
  | [] => none
  | p :: rest => if p.1 = k then some p.2 else lookupKey k rest

/-- Python `dict` assignment `mapping[full] = date` on the association-list
model: an existing key keeps its position and gets the new value; a new key
is appended at the end (insertion order). -/
def dictInsert (m : List (String × String)) (k v : String) : List (String × String) :=
  if k ∈ keysOf m then m.map (fun p => if p.1 = k then (p.1, v) else p)
  else m ++ [(k, v)]

/-- The resolution loop's mapping construction (lines 21-27), starting from
an accumulated mapping `m`: a failed resolution skips the entry, a
successful one performs `mapping[full] = date`. -/
def buildMappingAux (r : String → Option String) (m : List (String × String)) :
    List (String × String) → List (String × String)
  | [] => m
  | p :: rest =>
    match r p.1 with
    | none => buildMappingAux r m rest
    | some full => buildMappingAux r (dictInsert m full p.2) rest

/-- The mapping built by the resolution loop from the empty dict. -/
def buildMapping (r : String → Option String) (l : List (String × String)) :
    List (String × String) :=
  buildMappingAux r [] l

/-- Console line printed for one entry of the resolution loop:
`"short -> full -> date"` on success, `"Could not resolve short"` on
failure. -/
def resolveEvent (r : String → Option String) (p : String × String) : Event :=
  match r p.1 with
  | some full => Event.print (p.1 ++ " -> " ++ full ++ " -> " ++ p.2)
  | none => Event.print ("Could not resolve " ++ p.1)

/-- Console output of the whole resolution loop, in entry order. -/
def resolveEvents (r : String → Option String) (l : List (String × String)) :
    List Event :=
  l.map (resolveEvent r)

/-- One conditional block of the emitted filter script (lines 33-36): guarded
on `GIT_COMMIT` equalling the full hash, exporting the date as both
`GIT_AUTHOR_DATE` and `GIT_COMMITTER_DATE`. -/
def filterBlock (full date : String) : String :=
  "if [ \"$GIT_COMMIT\" = \"" ++ full ++ "\" ]; then\n" ++
  "    export GIT_AUTHOR_DATE=\"" ++ date ++ "\"\n" ++
  "    export GIT_COMMITTER_DATE=\"" ++ date ++ "\"\n" ++
  "fi\n"

/-- Full content of `date_filter.sh`: the shebang line followed by one
conditional block per mapping entry, in mapping order (lines 30-36). -/
def scriptContent (m : List (String × String)) : String :=
  "#!/bin/sh\n" ++ String.join (m.map (fun p => filterBlock p.1 p.2))

/-- Model of `os.path.abspath` for a relative name: the current working
directory joined with the name. -/
def absPath (cwd name : String) : String :=
  cwd ++ "/" ++ name

/-- The `git filter-branch` command line built at line 42. -/
def rewriteCmd (cwd : String) : List String :=
  ["git", "filter-branch", "--env-filter", absPath cwd "date_filter.sh",
   "--force", "--", "--all"]

/-- One run of the script: the event trace and whether the process terminated
normally.  `subprocess.run(cmd, check=True)` raises on a non-zero exit code,
so `print("Done!")` is only reached when the rewrite exits 0, and the process
terminates abnormally otherwise. -/
def run (env : Env) : List Event × Bool :=
  (Event.print "Resolving hashes..." ::
     resolveEvents env.resolve commits ++
     [Event.writeFile "date_filter.sh" (scriptContent (buildMapping env.resolve commits)),
      Event.chmod "date_filter.sh" 0o755,
      Event.print "Running git filter-branch...",
      Event.runCmd (rewriteCmd env.cwd)] ++
     (if env.rewriteExitCode = 0 then [Event.print "Done!"] else []),
   env.rewriteExitCode == 0)

/-- The event trace of a run. -/
def runEvents (env : Env) : List Event :=
  (run env).1

/-- Whether a run terminated normally (exit status zero). -/
def runExitOk (env : Env) : Bool :=
  (run env).2

/-- The characters of a timestamp string strictly after its first `T`
(the time-of-day part, where an ISO-8601 zone designator would live). -/
def timeTail : List Char → List Char
  | [] => []
  | c :: rest => if c = 'T' then rest else timeTail rest

/-- Whether an ISO-8601 timestamp string carries an embedded time zone
offset: a `Z`, `+` or `-` designator after the time-of-day separator. -/
def hasTzOffset (s : String) : Bool :=
  (timeTail s.toList).any (fun c => c = 'Z' || c = '+' || c = '-')

/-- Whether a string has the ISO-8601 local date-time shape
`YYYY-MM-DDTHH:MM:SS` (19 characters, digits and fixed separators, no zone
designator). -/
def isIsoLocalDateTime (s : String) : Bool :=
  match s.toList with
  | [y1, y2, y3, y4, s1, mo1, mo2, s2, d1, d2, t, h1, h2, c1, mi1, mi2, c2, se1, se2] =>
    y1.isDigit && y2.isDigit && y3.isDigit && y4.isDigit && s1 = '-' &&
    mo1.isDigit && mo2.isDigit && s2 = '-' && d1.isDigit && d2.isDigit &&
    t = 'T' && h1.isDigit && h2.isDigit && c1 = ':' && mi1.isDigit &&
    mi2.isDigit && c2 = ':' && se1.isDigit && se2.isDigit
  | _ => false

/-- Concrete environment: every resolution fails, rewrite exits 0. -/
def envOk : Env :=
  ⟨fun _ => none, 0, "/repo"⟩

/-- Concrete environment: every resolution fails, rewrite exits 1. -/
def envFail : Env :=
  ⟨fun _ => none, 1, "/repo"⟩

/-- A concrete full hash used by the witness environments. -/
def fullA : String :=
  "afadbad00112233445566778899aabbccddeeff0"

/-- Concrete environment: only the first commit's short hash resolves. -/
def envOne : Env :=
  ⟨fun s => if s = "afadbad" then some fullA else none, 0, "/repo"⟩

/-- Concrete environment: the first two short hashes both resolve to the
same full hash. -/
def envDup : Env :=
  ⟨fun s => if s = "afadbad" || s = "32cac5d" then some fullA else none, 0, "/repo"⟩

/-- The hardcoded commit list without its first entry. -/
def commitsTail : List (String × String) :=
  [ ("32cac5d", "2025-11-19T14:00:00"),
    ("5555779", "2025-11-20T09:00:00"),
    ("09dcc55", "2025-11-20T11:00:00"),
    ("7b552ce", "2025-11-21T10:00:00"),
    ("cc7e692", "2025-11-21T16:00:00"),
    ("b8580ab", "2025-11-24T09:00:00"),
    ("d14d9d6", "2025-11-24T10:00:00"),
    ("540a291", "2025-11-25T11:00:00"),
    ("4d7c5ac", "2025-11-25T14:00:00"),
    ("74bc4e7", "2025-11-26T10:00:00") ]

/-- The hardcoded commit list without its first two entries. -/
def commitsTail2 : List (String × String) :=
  [ ("5555779", "2025-11-20T09:00:00"),
    ("09dcc55", "2025-11-20T11:00:00"),
    ("7b552ce", "2025-11-21T10:00:00"),
    ("cc7e692", "2025-11-21T16:00:00"),
    ("b8580ab", "2025-11-24T09:00:00"),
    ("d14d9d6", "2025-11-24T10:00:00"),
    ("540a291", "2025-11-25T11:00:00"),
    ("4d7c5ac", "2025-11-25T14:00:00"),
    ("74bc4e7", "2025-11-26T10:00:00") ]

/-! ### Association-list lemmas -/

theorem keysOf_map_update (m : List (String × String)) (k v : String) :
    keysOf (m.map (fun p => if p.1 = k then (p.1, v) else p)) = keysOf m := by
  induction m with
  | nil => rfl
  | cons p rest ih =>
    by_cases h : p.1 = k <;> simp [keysOf, h] <;> simpa [keysOf] using ih

theorem keysOf_dictInsert (m : List (String × String)) (k v : String) :
    keysOf (dictInsert m k v) =
      if k ∈ keysOf m then keysOf m else keysOf m ++ [k] := by
  unfold dictInsert
  split
  · simp [keysOf_map_update, *]
  · simp [keysOf, *]

theorem keysOf_dictInsert_of_mem (m : List (String × String)) (k v : String)
    (h : k ∈ keysOf m) : keysOf (dictInsert m k v) = keysOf m := by
  rw [keysOf_dictInsert, if_pos h]

theorem mem_keysOf_dictInsert_self (m : List (String × String)) (k v : String) :
    k ∈ keysOf (dictInsert m k v) := by
  rw [keysOf_dictInsert]
  split
  · assumption
  · simp

theorem mem_keysOf_dictInsert_of_mem (m : List (String × String)) (k k' v : String)
    (h : k' ∈ keysOf m) : k' ∈ keysOf (dictInsert m k v) := by
  rw [keysOf_dictInsert]
  split
  · assumption
  · exact List.mem_append_left _ h

theorem keysOf_nodup_dictInsert (m : List (String × String)) (k v : String)
    (h : (keysOf m).Nodup) : (keysOf (dictInsert m k v)).Nodup := by
  rw [keysOf_dictInsert]
  split
  · exact h
  · refine List.Nodup.append h (List.nodup_singleton k) ?_
    intro x hx hmem
    simp only [List.mem_singleton] at hmem
    subst hmem
    exact absurd hx (by assumption)

theorem lookupKey_map_update_ne (m : List (String × String)) (k k' v : String)
    (h : k' ≠ k) :
    lookupKey k' (m.map (fun p => if p.1 = k then (p.1, v) else p)) =
      lookupKey k' m := by
  induction m with
  | nil => rfl
  | cons p rest ih =>
    have h1 : ((if p.1 = k then (p.1, v) else p) : String × String).1 = p.1 := by
      split <;> rfl
    by_cases hpk : p.1 = k'
    · simp [lookupKey, hpk, h]
    · simp [lookupKey, h1, hpk, ih]

theorem lookupKey_map_update_self (m : List (String × String)) (k v : String)
    (h : k ∈ keysOf m) :
    lookupKey k (m.map (fun p => if p.1 = k then (p.1, v) else p)) = some v := by
  induction m with
  | nil => simp [keysOf] at h
  | cons p rest ih =>
    by_cases hp : p.1 = k
    · simp [lookupKey, hp]
    · have h' : k ∈ keysOf rest := by
        simp [keysOf] at h
        rcases h with h | h
        · exact absurd h.symm hp
        · simpa [keysOf] using h
      simp [lookupKey, hp, ih h']

theorem lookupKey_append_of_not_mem (m1 m2 : List (String × String)) (k : String)
    (h : k ∉ keysOf m1) : lookupKey k (m1 ++ m2) = lookupKey k m2 := by
  induction m1 with
  | nil => rfl
  | cons p rest ih =>
    have hp : p.1 ≠ k := by
      intro hc
      exact h (by simp [keysOf, hc])
    have h' : k ∉ keysOf rest := fun hc => h (by simp [keysOf]; right; simpa [keysOf] using hc)
    simp [lookupKey, hp, ih h']

theorem lookupKey_dictInsert_self (m : List (String × String)) (k v : String) :
    lookupKey k (dictInsert m k v) = some v := by
  unfold dictInsert
  split
  · exact lookupKey_map_update_self m k v (by assumption)
  · rw [lookupKey_append_of_not_mem m [(k, v)] k (by assumption)]
    simp [lookupKey]

theorem lookupKey_append_singleton_ne (m : List (String × String)) (k k' v : String)
    (h : k' ≠ k) : lookupKey k' (m ++ [(k, v)]) = lookupKey k' m := by
  induction m with
  | nil => simp [lookupKey, show ¬k = k' from fun hc => h hc.symm]
  | cons p rest ih =>
    by_cases hp : p.1 = k' <;> simp [lookupKey, hp, ih]

theorem lookupKey_dictInsert_ne (m : List (String × String)) (k k' v : String)
    (h : k' ≠ k) : lookupKey k' (dictInsert m k v) = lookupKey k' m := by
  unfold dictInsert
  split
  · exact lookupKey_map_update_ne m k k' v h
  · exact lookupKey_append_singleton_ne m k k' v h

theorem mem_keysOf_of_lookupKey (m : List (String × String)) (k v : String)
    (h : lookupKey k m = some v) : k ∈ keysOf m := by
  induction m with
  | nil => simp [lookupKey] at h
  | cons p rest ih =>
    by_cases hp : p.1 = k
    · simp [keysOf, hp]
    · simp only [lookupKey, if_neg hp] at h
      simp [keysOf]
      right
      simpa [keysOf] using ih h

/-! ### Resolution-loop lemmas -/

theorem buildMappingAux_append (r : String → Option String)
    (l1 l2 : List (String × String)) :
    ∀ m, buildMappingAux r m (l1 ++ l2) =
      buildMappingAux r (buildMappingAux r m l1) l2 := by
  induction l1 with
  | nil => intro m; rfl
  | cons p rest ih =>
    intro m
    cases hr : r p.1 <;> simp [buildMappingAux, hr, ih]

theorem mem_keysOf_buildMappingAux_mono (r : String → Option String)
    (l : List (String × String)) (k : String) :
    ∀ m, k ∈ keysOf m → k ∈ keysOf (buildMappingAux r m l) := by
  induction l with
  | nil => intro m h; exact h
  | cons p rest ih =>
    intro m h
    cases hr : r p.1 with
    | none => simpa [buildMappingAux, hr] using ih m h
    | some full =>
      simp only [buildMappingAux, hr]
      exact ih _ (mem_keysOf_dictInsert_of_mem m full k p.2 h)

theorem mem_keysOf_buildMappingAux_of_entry (r : String → Option String)
    (l : List (String × String)) (q : String × String) (full : String)
    (hq : q ∈ l) (hr : r q.1 = some full) :
    ∀ m, full ∈ keysOf (buildMappingAux r m l) := by
  induction l with
  | nil => cases hq
  | cons p rest ih =>
    intro m
    rcases List.mem_cons.mp hq with hqp | hqrest
    · subst hqp
      simp only [buildMappingAux, hr]
      exact mem_keysOf_buildMappingAux_mono r rest full _
        (mem_keysOf_dictInsert_self m full q.2)
    · cases hrp : r p.1 with
      | none => simpa [buildMappingAux, hrp] using ih hqrest _
      | some f => simpa [buildMappingAux, hrp] using ih hqrest _

theorem keysOf_nodup_buildMappingAux (r : String → Option String)
    (l : List (String × String)) :
    ∀ m, (keysOf m).Nodup → (keysOf (buildMappingAux r m l)).Nodup := by
  induction l with
  | nil => intro m h; exact h
  | cons p rest ih =>
    intro m h
    cases hr : r p.1 with
    | none => simpa [buildMappingAux, hr] using ih m h
    | some full =>
      simp only [buildMappingAux, hr]
      exact ih _ (keysOf_nodup_dictInsert m full p.2 h)

theorem lookupKey_buildMappingAux_untouched (r : String → Option String)
    (l : List (String × String)) (k : String)
    (h : ∀ q ∈ l, r q.1 ≠ some k) :
    ∀ m, lookupKey k (buildMappingAux r m l) = lookupKey k m := by
  induction l with
  | nil => intro m; rfl
  | cons p rest ih =>
    intro m
    have hrest : ∀ q ∈ rest, r q.1 ≠ some k :=
      fun q hq => h q (List.mem_cons_of_mem p hq)
    cases hr : r p.1 with
    | none => simpa [buildMappingAux, hr] using ih hrest m
    | some full =>
      have hfk : full ≠ k := by
        intro hc
        exact h p (List.mem_cons_self p rest) (by rw [hr, hc])
      simp only [buildMappingAux, hr]
      rw [ih hrest _, lookupKey_dictInsert_ne m full k p.2 (fun hc => hfk hc.symm)]

theorem lookupKey_buildMappingAux_const (r : String → Option String) (k d : String)
    (l : List (String × String)) :
    ∀ m, (∀ q ∈ l, r q.1 = some k → q.2 = d) →
      ((∃ q ∈ l, r q.1 = some k) ∨ lookupKey k m = some d) →
      lookupKey k (buildMappingAux r m l) = some d := by
  induction l with
  | nil =>
    intro m _ hdisj
    rcases hdisj with ⟨q, hq, _⟩ | h
    · cases hq
    · exact h
  | cons p rest ih =>
    intro m hall hdisj
    have hrest : ∀ q ∈ rest, r q.1 = some k → q.2 = d :=
      fun q hq => hall q (List.mem_cons_of_mem p hq)
    cases hr : r p.1 with
    | none =>
      simp only [buildMappingAux, hr]
      refine ih m hrest ?_
      rcases hdisj with ⟨q, hq, hqr⟩ | h
      · rcases List.mem_cons.mp hq with hqp | hqrest
        · subst hqp; rw [hr] at hqr; cases hqr
        · exact Or.inl ⟨q, hqrest, hqr⟩
      · exact Or.inr h
    | some full =>
      simp only [buildMappingAux, hr]
      by_cases hfk : full = k
      · subst hfk
        have hpd : p.2 = d := hall p (List.mem_cons_self p rest) hr
        refine ih _ hrest (Or.inr ?_)
        rw [hpd]
        exact lookupKey_dictInsert_self m full d
      · refine ih _ hrest ?_
        rcases hdisj with ⟨q, hq, hqr⟩ | h
        · rcases List.mem_cons.mp hq with hqp | hqrest
          · subst hqp
            rw [hr] at hqr
            exact absurd (Option.some.inj hqr) hfk
          · exact Or.inl ⟨q, hqrest, hqr⟩
        · refine Or.inr ?_
          rw [lookupKey_dictInsert_ne m full k p.2 (fun hc => hfk hc.symm)]
          exact h

theorem keysOf_buildMappingAux_congr (r : String → Option String)
    (l : List (String × String)) :
    ∀ m1 m2, keysOf m1 = keysOf m2 →
      keysOf (buildMappingAux r m1 l) = keysOf (buildMappingAux r m2 l) := by
  induction l with
  | nil => intro m1 m2 h; exact h
  | cons p rest ih =>
    intro m1 m2 h
    cases hr : r p.1 with
    | none => simpa [buildMappingAux, hr] using ih m1 m2 h
    | some full =>
      simp only [buildMappingAux, hr]
      refine ih _ _ ?_
      rw [keysOf_dictInsert, keysOf_dictInsert, h]

theorem buildMappingAux_congr_resolve (r1 r2 : String → Option String)
    (l : List (String × String)) (h : ∀ q ∈ l, r1 q.1 = r2 q.1) :
    ∀ m, buildMappingAux r1 m l = buildMappingAux r2 m l := by
  induction l with
  | nil => intro m; rfl
  | cons p rest ih =>
    intro m
    have hrest : ∀ q ∈ rest, r1 q.1 = r2 q.1 :=
      fun q hq => h q (List.mem_cons_of_mem p hq)
    have hp := h p (List.mem_cons_self p rest)
    cases hr : r2 p.1 with
    | none =>
      have h1 : r1 p.1 = none := hp.trans hr
      simp [buildMappingAux, h1, hr, ih hrest]
    | some full =>
      have h1 : r1 p.1 = some full := hp.trans hr
      simp [buildMappingAux, h1, hr, ih hrest]

theorem buildMappingAux_all_none (r : String → Option String)
    (l : List (String × String)) (h : ∀ q ∈ l, r q.1 = none) :
    ∀ m, buildMappingAux r m l = m := by
  induction l with
  | nil => intro m; rfl
  | cons p rest ih =>
    intro m
    have hp := h p (List.mem_cons_self p rest)
    rw [buildMappingAux, hp, ih (fun q hq => h q (List.mem_cons_of_mem p hq))]

/-! ### Event-trace lemmas -/

theorem runEvents_eq (env : Env) :
    runEvents env =
      Event.print "Resolving hashes..." ::
        resolveEvents env.resolve commits ++
        [Event.writeFile "date_filter.sh"
           (scriptContent (buildMapping env.resolve commits)),
         Event.chmod "date_filter.sh" 0o755,
         Event.print "Running git filter-branch...",
         Event.runCmd (rewriteCmd env.cwd)] ++
        (if env.rewriteExitCode = 0 then [Event.print "Done!"] else []) := rfl

theorem resolveEvent_print_length (r : String → Option String) (p : String × String) :
    ∃ s, resolveEvent r p = Event.print s ∧ p.1.length ≤ s.length := by
  unfold resolveEvent
  cases hr : r p.1 with
  | none =>
    refine ⟨"Could not resolve " ++ p.1, rfl, ?_⟩
    rw [String.length_append]
    omega
  | some full =>
    refine ⟨p.1 ++ " -> " ++ full ++ " -> " ++ p.2, rfl, ?_⟩
    simp only [String.length_append]
    omega

theorem commits_fst_length : ∀ p ∈ commits, p.1.length = 7 := by decide

theorem print_done_not_mem_resolveEvents (r : String → Option String) :
    Event.print "Done!" ∉ resolveEvents r commits := by
  intro hmem
  rcases List.mem_map.mp hmem with ⟨p, hp, hpe⟩
  rcases resolveEvent_print_length r p with ⟨s, heq, hlen⟩
  rw [heq] at hpe
  have hs : s = "Done!" := (Event.print.injEq _ _).mp hpe
  rw [commits_fst_length p hp, hs] at hlen
  exact absurd hlen (by decide)

theorem mem_runEvents_of_mem_resolveEvents (env : Env) (e : Event)
    (h : e ∈ resolveEvents env.resolve commits) : e ∈ runEvents env := by
  rw [runEvents_eq]
  exact List.mem_cons_of_mem _ (List.mem_append_left _ (List.mem_append_left _ h))

theorem mem_runEvents_cases (env : Env) (e : Event) (h : e ∈ runEvents env) :
    e = Event.print "Resolving hashes..." ∨
    e ∈ resolveEvents env.resolve commits ∨
    e = Event.writeFile "date_filter.sh"
          (scriptContent (buildMapping env.resolve commits)) ∨
    e = Event.chmod "date_filter.sh" 0o755 ∨
    e = Event.print "Running git filter-branch..." ∨
    e = Event.runCmd (rewriteCmd env.cwd) ∨
    (env.rewriteExitCode = 0 ∧ e = Event.print "Done!") := by
  rw [runEvents_eq] at h
  rcases List.mem_cons.mp h with h | h
  · exact Or.inl h
  rcases List.mem_append.mp h with h | h
  · rcases List.mem_append.mp h with h | h
    · exact Or.inr (Or.inl h)
    rcases List.mem_cons.mp h with h | h
    · exact Or.inr (Or.inr (Or.inl h))
    rcases List.mem_cons.mp h with h | h
    · exact Or.inr (Or.inr (Or.inr (Or.inl h)))
    rcases List.mem_cons.mp h with h | h
    · exact Or.inr (Or.inr (Or.inr (Or.inr (Or.inl h))))
    rcases List.mem_cons.mp h with h | h
    · exact Or.inr (Or.inr (Or.inr (Or.inr (Or.inr (Or.inl h)))))
    · cases h
  · split at h
    · rw [List.mem_singleton] at h
      refine Or.inr (Or.inr (Or.inr (Or.inr (Or.inr (Or.inr ⟨?_, h⟩)))))
      assumption
    · cases h

/-! ### Claim theorems -/

/-- C1: for every entry of the hardcoded commit list whose abbreviated
reference resolves to a full identifier (and whose resolved identifier is
not shared by an entry with a different timestamp, as is the case for
distinct abbreviated hashes), the emitted filter script contains exactly one
conditional block guarded on that full identifier, and that block carries
the entry's configured timestamp for both date variables: the mapping has
exactly one entry keyed by the full identifier, its value is the entry's
timestamp, and the script written to `date_filter.sh` is the shebang
followed by one `filterBlock` (which exports both `GIT_AUTHOR_DATE` and
`GIT_COMMITTER_DATE`) per mapping entry. -/
theorem c1_filter_blocks (env : Env) (p : String × String) (full : String)
    (hp : p ∈ commits) (hres : env.resolve p.1 = some full)
    (huniq : ∀ q ∈ commits, env.resolve q.1 = some full → q.2 = p.2) :
    (keysOf (buildMapping env.resolve commits)).count full = 1 ∧
    lookupKey full (buildMapping env.resolve commits) = some p.2 ∧
    scriptContent (buildMapping env.resolve commits) =
      "#!/bin/sh\n" ++ String.join ((buildMapping env.resolve commits).map
        (fun q => filterBlock q.1 q.2)) ∧
    Event.writeFile "date_filter.sh" (scriptContent (buildMapping env.resolve commits)) ∈
      runEvents env := by
  refine ⟨?_, ?_, rfl, ?_⟩
  · have hmem : full ∈ keysOf (buildMapping env.resolve commits) :=
      mem_keysOf_buildMappingAux_of_entry env.resolve commits p full hp hres []
    have hnodup : (keysOf (buildMapping env.resolve commits)).Nodup :=
      keysOf_nodup_buildMappingAux env.resolve commits [] (by simp [keysOf])
    exact List.count_eq_one_of_mem hnodup hmem
  · exact lookupKey_buildMappingAux_const env.resolve full p.2 commits []
      huniq (Or.inl ⟨p, hp, hres⟩)
  · rw [runEvents_eq]
    simp

/-- C2: a non-zero exit of the `git filter-branch` invocation terminates the
whole process abnormally (uncaught `CalledProcessError` from
`subprocess.run(cmd, check=True)`) and the completion message `Done!` is not
printed; a zero exit prints `Done!` and the process terminates normally. -/
theorem c2_exit_status (env : Env) :
    (env.rewriteExitCode ≠ 0 →
      runExitOk env = false ∧ Event.print "Done!" ∉ runEvents env) ∧
    (env.rewriteExitCode = 0 →
      runExitOk env = true ∧ Event.print "Done!" ∈ runEvents env) := by
  constructor
  · intro h
    constructor
    · simp only [runExitOk, run]
      exact beq_eq_false_iff_ne.mpr h
    · intro hmem
      rcases mem_runEvents_cases env _ hmem with
        h1 | h2 | h3 | h4 | h5 | h6 | ⟨h0, _⟩
      · exact absurd ((Event.print.injEq _ _).mp h1) (by decide)
      · exact print_done_not_mem_resolveEvents env.resolve h2
      · exact Event.noConfusion h3
      · exact Event.noConfusion h4
      · exact absurd ((Event.print.injEq _ _).mp h5) (by decide)
      · exact Event.noConfusion h6
      · exact h h0
  · intro h
    refine ⟨by simp [runExitOk, run, h], ?_⟩
    rw [runEvents_eq, if_pos h]
    simp

/-- C3: for an entry of the hardcoded commit list whose hash resolution
fails, the resolution-failure message is printed, the entry contributes
nothing to the mapping (the mapping equals the one built from the list with
that entry removed), and all subsequent entries are still processed (the
resolution loop's output contains the per-entry line of every other entry,
in order). -/
theorem c3_resolution_failure (env : Env) (l1 l2 : List (String × String))
    (p : String × String) (hc : commits = l1 ++ p :: l2)
    (hres : env.resolve p.1 = none) :
    Event.print ("Could not resolve " ++ p.1) ∈ runEvents env ∧
    buildMapping env.resolve commits = buildMapping env.resolve (l1 ++ l2) ∧
    resolveEvents env.resolve commits =
      resolveEvents env.resolve l1 ++
        Event.print ("Could not resolve " ++ p.1) ::
        resolveEvents env.resolve l2 := by
  have hev : resolveEvents env.resolve commits =
      resolveEvents env.resolve l1 ++
        Event.print ("Could not resolve " ++ p.1) ::
        resolveEvents env.resolve l2 := by
    rw [hc]
    simp [resolveEvents, resolveEvent, hres]
  refine ⟨?_, ?_, hev⟩
  · apply mem_runEvents_of_mem_resolveEvents
    rw [hev]
    exact List.mem_append_right _ (List.mem_cons_self _ _)
  · rw [hc]
    unfold buildMapping
    rw [buildMappingAux_append env.resolve l1 (p :: l2) [],
        buildMappingAux_append env.resolve l1 l2 []]
    simp [buildMappingAux, hres]

/-- C5: the history-rewrite invocation recorded in the trace is exactly
`git filter-branch --env-filter <abspath of date_filter.sh> --force -- --all`
(an environment-filter option pointing at the absolute path of the emitted
script, the force flag, and the all-refs selection), and it is the only
external command invocation in the trace besides the per-entry resolutions,
which are modelled by the environment and only produce prints. -/
theorem c5_rewrite_command (env : Env) :
    Event.runCmd (rewriteCmd env.cwd) ∈ runEvents env ∧
    (∀ args, Event.runCmd args ∈ runEvents env → args = rewriteCmd env.cwd) ∧
    rewriteCmd env.cwd =
      ["git", "filter-branch", "--env-filter", absPath env.cwd "date_filter.sh",
       "--force", "--", "--all"] := by
  refine ⟨?_, ?_, rfl⟩
  · rw [runEvents_eq]
    simp
  · intro args hmem
    rcases mem_runEvents_cases env _ hmem with
      h1 | h2 | h3 | h4 | h5 | h6 | ⟨_, h7⟩
    · exact Event.noConfusion h1
    · rcases List.mem_map.mp h2 with ⟨q, _, hqe⟩
      rcases resolveEvent_print_length env.resolve q with ⟨s, heq, _⟩
      rw [hqe] at heq
      exact Event.noConfusion heq
    · exact Event.noConfusion h3
    · exact Event.noConfusion h4
    · exact Event.noConfusion h5
    · exact (Event.runCmd.injEq _ _).mp h6
    · exact Event.noConfusion h7

/-- C4 counterexample: the first entry of the hardcoded commit list carries
the timestamp `2025-11-19T10:00:00`, which has no embedded time zone offset
(no `Z`, `+` or `-` designator after the time-of-day separator), refuting
the claim that every target timestamp is an ISO-8601 string with an
embedded time zone offset. -/
theorem c4_cex_no_tz_offset :
    ("afadbad", "2025-11-19T10:00:00") ∈ commits ∧
    hasTzOffset "2025-11-19T10:00:00" = false := by
  constructor
  · decide
  · decide

/-- C4 (amended): every target timestamp in the hardcoded commit mapping is
an ISO-8601 local date-time string of the shape `YYYY-MM-DDTHH:MM:SS`
without any embedded time zone offset, and the same string is used for both
the authoring date and the committing date of its commit (the emitted block
exports it as both `GIT_AUTHOR_DATE` and `GIT_COMMITTER_DATE`). -/
theorem c4_timestamps (env : Env) :
    (∀ p ∈ commits, isIsoLocalDateTime p.2 = true ∧ hasTzOffset p.2 = false) ∧
    (∀ full date, filterBlock full date =
      "if [ \"$GIT_COMMIT\" = \"" ++ full ++ "\" ]; then\n" ++
      ("    export GIT_AUTHOR_DATE=\"" ++ date ++ "\"\n") ++
      ("    export GIT_COMMITTER_DATE=\"" ++ date ++ "\"\n") ++
      "fi\n") ∧
    scriptContent (buildMapping env.resolve commits) =
      "#!/bin/sh\n" ++ String.join ((buildMapping env.resolve commits).map
        (fun q => filterBlock q.1 q.2)) := by
  refine ⟨by decide, ?_, rfl⟩
  intro full date
  simp only [filterBlock, String.append_assoc]

/-- C6: in every run the permission bits of `date_filter.sh` are set to
`0o755` (execute for owner, group and other) after the file is written
(everything before the write is console output) and before the rewrite
command is invoked. -/
theorem c6_chmod_mode (env : Env) :
    (∃ pre rest,
      runEvents env = pre ++
        Event.writeFile "date_filter.sh"
          (scriptContent (buildMapping env.resolve commits)) ::
        Event.chmod "date_filter.sh" 0o755 ::
        Event.print "Running git filter-branch..." ::
        Event.runCmd (rewriteCmd env.cwd) :: rest ∧
      (∀ e ∈ pre, ∃ s, e = Event.print s)) ∧
    Nat.testBit 0o755 0 = true ∧ Nat.testBit 0o755 3 = true ∧
    Nat.testBit 0o755 6 = true := by
  refine ⟨⟨Event.print "Resolving hashes..." :: resolveEvents env.resolve commits,
    (if env.rewriteExitCode = 0 then [Event.print "Done!"] else []), ?_, ?_⟩,
    by decide, by decide, by decide⟩
  · rw [runEvents_eq]
    simp
  · intro e he
    rcases List.mem_cons.mp he with h | h
    · exact ⟨_, h⟩
    · rcases List.mem_map.mp h with ⟨q, _, hqe⟩
      rcases resolveEvent_print_length env.resolve q with ⟨s, heq, _⟩
      exact ⟨s, hqe ▸ heq⟩

/-- C7: when no entry of the commit list resolves, the mapping is empty, the
script written to `date_filter.sh` is just the shebang line with no
conditional blocks, and the rewrite command is still invoked. -/
theorem c7_empty_mapping (env : Env)
    (h : ∀ p ∈ commits, env.resolve p.1 = none) :
    buildMapping env.resolve commits = [] ∧
    scriptContent (buildMapping env.resolve commits) = "#!/bin/sh\n" ∧
    Event.writeFile "date_filter.sh" "#!/bin/sh\n" ∈ runEvents env ∧
    Event.runCmd (rewriteCmd env.cwd) ∈ runEvents env := by
  have hempty : buildMapping env.resolve commits = [] :=
    buildMappingAux_all_none env.resolve commits h []
  have hscript : scriptContent (buildMapping env.resolve commits) = "#!/bin/sh\n" := by
    rw [hempty]
    simp [scriptContent, String.join]
  refine ⟨hempty, hscript, ?_, ?_⟩
  · rw [← hscript, runEvents_eq]
    simp
  · rw [runEvents_eq]
    simp

/-- C8: the constructed mapping and the emitted filter-script content are
functions of the resolution results alone: two runs whose environments
resolve every abbreviated reference of the commit list identically produce
the same mapping and the same script content. -/
theorem c8_deterministic (env1 env2 : Env)
    (h : ∀ p ∈ commits, env1.resolve p.1 = env2.resolve p.1) :
    buildMapping env1.resolve commits = buildMapping env2.resolve commits ∧
    scriptContent (buildMapping env1.resolve commits) =
      scriptContent (buildMapping env2.resolve commits) := by
  have hm : buildMapping env1.resolve commits = buildMapping env2.resolve commits :=
    buildMappingAux_congr_resolve env1.resolve env2.resolve commits h []
  exact ⟨hm, by rw [hm]⟩

/-- C9: in every run the trace decomposes as console prints, then the single
write of the complete filter-script content, then the chmod, then the
rewrite invocation: no file write occurs anywhere else and no external
command is invoked before the file's content is complete. -/
theorem c9_write_before_use (env : Env) :
    ∃ pre rest,
      runEvents env = pre ++
        Event.writeFile "date_filter.sh"
          (scriptContent (buildMapping env.resolve commits)) :: rest ∧
      (∀ e ∈ pre, ∃ s, e = Event.print s) ∧
      (∀ name c, Event.writeFile name c ∉ pre) ∧
      (∀ name c, Event.writeFile name c ∉ rest) ∧
      (∀ args, Event.runCmd args ∉ pre) ∧
      Event.chmod "date_filter.sh" 0o755 ∈ rest ∧
      Event.runCmd (rewriteCmd env.cwd) ∈ rest := by
  refine ⟨Event.print "Resolving hashes..." :: resolveEvents env.resolve commits,
    Event.chmod "date_filter.sh" 0o755 ::
      Event.print "Running git filter-branch..." ::
      Event.runCmd (rewriteCmd env.cwd) ::
      (if env.rewriteExitCode = 0 then [Event.print "Done!"] else []),
    ?_, ?_, ?_, ?_, ?_, ?_, ?_⟩
  · rw [runEvents_eq]
    simp
  · intro e he
    rcases List.mem_cons.mp he with h | h
    · exact ⟨_, h⟩
    · rcases List.mem_map.mp h with ⟨q, _, hqe⟩
      rcases resolveEvent_print_length env.resolve q with ⟨s, heq, _⟩
      exact ⟨s, hqe ▸ heq⟩
  · intro name c hmem
    rcases List.mem_cons.mp hmem with h | h
    · exact Event.noConfusion h
    · rcases List.mem_map.mp h with ⟨q, _, hqe⟩
      rcases resolveEvent_print_length env.resolve q with ⟨s, heq, _⟩
      rw [hqe] at heq
      exact Event.noConfusion heq
  · intro name c hmem
    rcases List.mem_cons.mp hmem with h | h
    · exact Event.noConfusion h
    rcases List.mem_cons.mp h with h | h
    · exact Event.noConfusion h
    rcases List.mem_cons.mp h with h | h
    · exact Event.noConfusion h
    · split at h
      · rw [List.mem_singleton] at h
        exact Event.noConfusion h
      · cases h
  · intro args hmem
    rcases List.mem_cons.mp hmem with h | h
    · exact Event.noConfusion h
    · rcases List.mem_map.mp h with ⟨q, _, hqe⟩
      rcases resolveEvent_print_length env.resolve q with ⟨s, heq, _⟩
      rw [hqe] at heq
      exact Event.noConfusion heq
  · exact List.mem_cons_self _ _
  · exact List.mem_cons_of_mem _ (List.mem_cons_of_mem _ (List.mem_cons_self _ _))

/-- C10: if two entries of the hardcoded commit list resolve to the same
full identifier, the later entry's timestamp overwrites the earlier one in
the mapping, exactly one conditional block is emitted for that identifier,
and the emitted blocks appear in the order in which their identifiers were
first successfully resolved (the key order equals the key order obtained
with the later duplicate entry removed). -/
theorem c10_duplicate_resolution (env : Env)
    (l1 l2 l3 : List (String × String)) (p1 p2 : String × String) (full : String)
    (hc : commits = l1 ++ p1 :: l2 ++ p2 :: l3)
    (h1 : env.resolve p1.1 = some full) (h2 : env.resolve p2.1 = some full)
    (h3 : ∀ q ∈ l3, env.resolve q.1 ≠ some full) :
    lookupKey full (buildMapping env.resolve commits) = some p2.2 ∧
    (keysOf (buildMapping env.resolve commits)).count full = 1 ∧
    keysOf (buildMapping env.resolve commits) =
      keysOf (buildMapping env.resolve (l1 ++ p1 :: (l2 ++ l3))) := by
  have hp1 : p1 ∈ commits := by
    rw [hc]
    exact List.mem_append_left _ (List.mem_append_right _ (List.mem_cons_self _ _))
  have hM2 : buildMappingAux env.resolve [] (l1 ++ (p1 :: l2)) =
      buildMappingAux env.resolve
        (dictInsert (buildMappingAux env.resolve [] l1) full p1.2) l2 := by
    rw [buildMappingAux_append env.resolve l1 (p1 :: l2) []]
    simp only [buildMappingAux, h1]
  have hstep : buildMapping env.resolve commits =
      buildMappingAux env.resolve
        (dictInsert (buildMappingAux env.resolve [] (l1 ++ (p1 :: l2)))
          full p2.2) l3 := by
    rw [hc]
    unfold buildMapping
    rw [buildMappingAux_append env.resolve (l1 ++ (p1 :: l2)) (p2 :: l3) []]
    simp only [buildMappingAux, h2]
  have hmemM2 : full ∈ keysOf (buildMappingAux env.resolve [] (l1 ++ (p1 :: l2))) := by
    rw [hM2]
    exact mem_keysOf_buildMappingAux_mono env.resolve l2 full _
      (mem_keysOf_dictInsert_self _ full p1.2)
  refine ⟨?_, ?_, ?_⟩
  · rw [hstep, lookupKey_buildMappingAux_untouched env.resolve l3 full h3 _]
    exact lookupKey_dictInsert_self _ full p2.2
  · have hmem : full ∈ keysOf (buildMapping env.resolve commits) :=
      mem_keysOf_buildMappingAux_of_entry env.resolve commits p1 full hp1 h1 []
    have hnodup : (keysOf (buildMapping env.resolve commits)).Nodup :=
      keysOf_nodup_buildMappingAux env.resolve commits [] (by simp [keysOf])
    exact List.count_eq_one_of_mem hnodup hmem
  · rw [hstep]
    have hrhs : buildMapping env.resolve (l1 ++ p1 :: (l2 ++ l3)) =
        buildMappingAux env.resolve
          (buildMappingAux env.resolve [] (l1 ++ (p1 :: l2))) l3 := by
      unfold buildMapping
      rw [buildMappingAux_append env.resolve l1 (p1 :: (l2 ++ l3)) []]
      simp only [buildMappingAux, h1]
      rw [buildMappingAux_append env.resolve l2 l3 _, ← hM2]
    rw [hrhs]
    exact keysOf_buildMappingAux_congr env.resolve l3 _ _
      (keysOf_dictInsert_of_mem _ full p2.2 hmemM2)

/-! ### Witnesses -/

/-- Witness for C1 at a concrete environment in which only `afadbad`
resolves. -/
theorem c1_filter_blocks_witness :
    envOne.resolve "afadbad" = some fullA ∧
    (keysOf (buildMapping envOne.resolve commits)).count fullA = 1 ∧
    lookupKey fullA (buildMapping envOne.resolve commits) =
      some "2025-11-19T10:00:00" :=
  ⟨by decide,
   (c1_filter_blocks envOne ("afadbad", "2025-11-19T10:00:00") fullA (by decide)
     (by decide) (by decide)).1,
   (c1_filter_blocks envOne ("afadbad", "2025-11-19T10:00:00") fullA (by decide)
     (by decide) (by decide)).2.1⟩

/-- Witness for C2 at concrete environments with exit codes 1 and 0. -/
theorem c2_exit_status_witness :
    (runExitOk envFail = false ∧ Event.print "Done!" ∉ runEvents envFail) ∧
    (runExitOk envOk = true ∧ Event.print "Done!" ∈ runEvents envOk) :=
  ⟨(c2_exit_status envFail).1 (by decide), (c2_exit_status envOk).2 rfl⟩

/-- Witness for C3 at a concrete environment in which the first entry fails
to resolve. -/
theorem c3_resolution_failure_witness :
    envFail.resolve "afadbad" = none ∧
    Event.print ("Could not resolve " ++ "afadbad") ∈ runEvents envFail :=
  ⟨rfl, (c3_resolution_failure envFail [] commitsTail
    ("afadbad", "2025-11-19T10:00:00") rfl rfl).1⟩

/-- Witness for C4 (amended) at the first hardcoded entry. -/
theorem c4_timestamps_witness :
    isIsoLocalDateTime "2025-11-19T10:00:00" = true ∧
    hasTzOffset "2025-11-19T10:00:00" = false :=
  ⟨((c4_timestamps envOk).1 ("afadbad", "2025-11-19T10:00:00") (by decide)).1,
   ((c4_timestamps envOk).1 ("afadbad", "2025-11-19T10:00:00") (by decide)).2⟩

/-- Witness for C5 at a concrete environment. -/
theorem c5_rewrite_command_witness :
    Event.runCmd (rewriteCmd envOk.cwd) ∈ runEvents envOk ∧
    rewriteCmd envOk.cwd =
      ["git", "filter-branch", "--env-filter", absPath envOk.cwd "date_filter.sh",
       "--force", "--", "--all"] :=
  ⟨(c5_rewrite_command envOk).1, (c5_rewrite_command envOk).2.2⟩

/-- Witness for C6 at a concrete environment: the chosen mode has all three
execute bits set. -/
theorem c6_chmod_mode_witness :
    Nat.testBit 0o755 0 = true ∧ Nat.testBit 0o755 3 = true ∧
    Nat.testBit 0o755 6 = true :=
  (c6_chmod_mode envOk).2

/-- Witness for C7 at a concrete environment in which nothing resolves. -/
theorem c7_empty_mapping_witness :
    (∀ p ∈ commits, envOk.resolve p.1 = none) ∧
    buildMapping envOk.resolve commits = [] ∧
    Event.runCmd (rewriteCmd envOk.cwd) ∈ runEvents envOk :=
  ⟨fun _ _ => rfl, (c7_empty_mapping envOk (fun _ _ => rfl)).1,
   (c7_empty_mapping envOk (fun _ _ => rfl)).2.2.2⟩

/-- Witness for C8 at two concrete environments with identical resolution
results but different rewrite exit codes. -/
theorem c8_deterministic_witness :
    buildMapping envOk.resolve commits = buildMapping envFail.resolve commits :=
  (c8_deterministic envOk envFail (fun _ _ => rfl)).1

/-- Witness for C9 at a concrete environment. -/
theorem c9_write_before_use_witness :
    ∃ pre rest,
      runEvents envOk = pre ++
        Event.writeFile "date_filter.sh"
          (scriptContent (buildMapping envOk.resolve commits)) :: rest ∧
      (∀ e ∈ pre, ∃ s, e = Event.print s) ∧
      (∀ name c, Event.writeFile name c ∉ pre) ∧
      (∀ name c, Event.writeFile name c ∉ rest) ∧
      (∀ args, Event.runCmd args ∉ pre) ∧
      Event.chmod "date_filter.sh" 0o755 ∈ rest ∧
      Event.runCmd (rewriteCmd envOk.cwd) ∈ rest :=
  c9_write_before_use envOk

/-- Witness for C10 at a concrete environment in which the first two entries
resolve to the same full hash. -/
theorem c10_duplicate_resolution_witness :
    envDup.resolve "afadbad" = some fullA ∧
    envDup.resolve "32cac5d" = some fullA ∧
    lookupKey fullA (buildMapping envDup.resolve commits) =
      some "2025-11-19T14:00:00" ∧
    (keysOf (buildMapping envDup.resolve commits)).count fullA = 1 :=
  ⟨by decide, by decide,
   (c10_duplicate_resolution envDup [] [] commitsTail2
     ("afadbad", "2025-11-19T10:00:00") ("32cac5d", "2025-11-19T14:00:00") fullA
     rfl (by decide) (by decide) (by decide)).1,
   (c10_duplicate_resolution envDup [] [] commitsTail2
     ("afadbad", "2025-11-19T10:00:00") ("32cac5d", "2025-11-19T14:00:00") fullA
     rfl (by decide) (by decide) (by decide)).2.1⟩

end RewriteDates
